import Mathlib

/-!
Verification of the panel-docking layout engine.

This file shallowly embeds the tree-mutation engine of the repository in
Lean 4 and proves (or refutes) the behavioural claims of its specification.
The repository contains two parallel implementations of the engine:

* `SplitTreeModel` (src/src/models/SplitTreeModel.cpp / .hpp), a
  `QAbstractItemModel`-based tree of `TreeNode` records, and
* `DockingManager` (src/src/models/DockingManager.cpp / .hpp), a
  QObject-tree of `PanelNode` / `ContainerNode` objects
  (node classes as in src/src/models/SplitPanelNode.hpp).

Pointer-based tree surgery is re-expressed functionally: a node identity is
the path of child slots (`first` / `second`) leading to it from the root, a
parent pointer is the prefix of that path, and ownership transfer becomes
subtree replacement along a path.  Qt variants (`QVariantMap`) are embedded
as association lists of a `Variant` sum type; `double` is embedded as `Rat`
(exact; `qFuzzyCompare` is modelled as exact equality, which preserves the
stored values).  Signal emission, logging and file I/O are not modelled:
the claims are about returned results and resulting tree states.
-/

namespace Docking

/-- Split orientation, `SplitTreeModel::Orientation` /
`ContainerNode::Orientation` (`Horizontal` = stacked, `Vertical` =
side-by-side). -/
inductive Orientation where
  | horizontal
  | vertical
deriving Repr, DecidableEq

/-- A child slot of a binary split container (`firstChild` / `secondChild`
in the C++). A path of slots from the root identifies a node, playing the
role that node pointers play in the source. -/
inductive Slot where
  | first
  | second
deriving Repr, DecidableEq

/-- The other slot: the slot holding the sibling. -/
def Slot.other : Slot → Slot
  | .first => .second
  | .second => .first

/-- `SplitTreeModel::DropZone` (enum class `None, Left, Right, Top, Bottom,
Center`).  `addPanelAt` receives an `int` and `static_cast`s it to this
enum; we model the API as taking the enum value directly. -/
inductive DropZone where
  | dznone
  | left
  | right
  | top
  | bottom
  | center
deriving Repr, DecidableEq

/-- `DockingManager::Direction` (`Left = 1, Right = 2, Top = 3, Bottom = 4,
Center = 5`).  As with `DropZone`, the `int` argument of
`DockingManager::addPanelAt` is modelled as the enum value itself. -/
inductive Direction where
  | left
  | right
  | top
  | bottom
  | center
deriving Repr, DecidableEq

/-- `SplitTreeModel::TreeNode`: either a panel leaf (fields `id`, `title`,
`qmlSource`, `canClose`, `minSize`) or a split container (fields `id`,
`orientation`, `splitRatio`, `minSize` and two nullable child slots).  The
non-owning `parent` back pointer of the C++ struct is represented by the
position of a node in the tree and therefore carries no separate field. -/
inductive TreeNode where
  | panel (id title qmlSource : String) (canClose : Bool) (minSize : Rat)
  | split (id : String) (orientation : Orientation) (splitRatio : Rat)
      (minSize : Rat) (firstChild secondChild : Option TreeNode)
deriving Repr

/-- Node of the `DockingManager` implementation: `PanelNode` (fields
`nodeId`, `title`, `qmlSource`, `minSize`) or `ContainerNode` (fields
`nodeId`, `orientation`, `splitRatio`, `minSize`, two nullable children),
see src/src/models/SplitPanelNode.hpp.  The Qt object parent pointer is
again represented positionally. -/
inductive DNode where
  | panel (id title qmlSource : String) (minSize : Rat)
  | container (id : String) (orientation : Orientation) (splitRatio : Rat)
      (minSize : Rat) (firstChild secondChild : Option DNode)
deriving Repr

/-- A `QVariant` as far as the engine uses it: strings, doubles (as `Rat`),
booleans, nested `QVariantMap`s (as association lists) and the invalid
variant returned by `QMap::value` for a missing key. -/
inductive Variant where
  | vstr (s : String)
  | vnum (q : Rat)
  | vbool (b : Bool)
  | vmap (m : List (String × Variant))
  | vnull
deriving Repr

/-- A `QVariantMap`. `QMap` keys are unique; the engine only ever reads
maps through `value` / `contains`, so an association list with first-match
lookup is an adequate embedding. -/
abbrev VariantMap := List (String × Variant)

/-- Key lookup in a `QVariantMap` (`QMap::value` without default). -/
def mlookup : VariantMap → String → Option Variant
  | [], _ => none
  | (k, v) :: rest, key => if k = key then some v else mlookup rest key

/-- `QMap::value(key)`: missing key yields the invalid variant. -/
def mvalue (m : VariantMap) (key : String) : Variant :=
  match mlookup m key with
  | some v => v
  | none => .vnull

/-- `QMap::value(key, defaultValue)`. -/
def mvalueD (m : VariantMap) (key : String) (dflt : Variant) : Variant :=
  match mlookup m key with
  | some v => v
  | none => dflt

/-- `QMap::contains`. -/
def mcontains (m : VariantMap) (key : String) : Bool :=
  (mlookup m key).isSome

/-- `QVariant::toString`.  Strings and booleans convert as Qt does; maps
and the invalid variant give the empty string.  For numbers we use Lean's
decimal/fraction printing of `Rat` as a stand-in for Qt's formatting; no
claim depends on the exact text of a number. -/
def vToString : Variant → String
  | .vstr s => s
  | .vbool b => if b then "true" else "false"
  | .vnum q => toString q
  | .vmap _ => ""
  | .vnull => ""

/-- `QVariant::toDouble`.  Numbers convert exactly, booleans to 0/1,
everything else to 0 (numeric parsing of strings is not modelled; the
engine never stores numbers as strings). -/
def vToRat : Variant → Rat
  | .vnum q => q
  | .vbool b => if b then 1 else 0
  | _ => 0

/-- `QVariant::toBool`. -/
def vToBool : Variant → Bool
  | .vbool b => b
  | .vnum q => q != 0
  | .vstr s => !(s = "" || s = "0" || s = "false")
  | _ => false

/-- `QVariant::toMap`: non-map variants give the empty map. -/
def vToMap : Variant → VariantMap
  | .vmap m => m
  | _ => []

mutual
/-- Size of a variant, the termination measure for recursive map
traversals (deserialisation). -/
def vsize : Variant → Nat
  | .vstr _ => 1
  | .vnum _ => 1
  | .vbool _ => 1
  | .vnull => 1
  | .vmap m => 1 + msize m

/-- Size of a variant map. -/
def msize : VariantMap → Nat
  | [] => 0
  | (_, v) :: rest => 1 + vsize v + msize rest
end

/-- `qBound(min, value, max)` (also `SplitPanelNodeHelpers::clampValue`):
`qMax(min, qMin(max, value))`. -/
def clampValue (value lo hi : Rat) : Rat :=
  max lo (min hi value)

/-- `SplitPanelNodeHelpers::validateSplitRatio`: clamp to `[0.1, 0.9]`. -/
def validateSplitRatio (ratio : Rat) : Rat :=
  clampValue ratio (mkRat 1 10) (mkRat 9 10)

/-- `SplitPanelNodeHelpers::validateMinSize`: clamp to `[50, 1000]`. -/
def validateMinSize (size : Rat) : Rat :=
  clampValue size 50 1000

/-- Identifier of a `TreeNode` (`node->id`). -/
def TreeNode.nid : TreeNode → String
  | .panel i _ _ _ _ => i
  | .split i _ _ _ _ _ => i

/-- Whether a `TreeNode` is a panel leaf (`node->type == NodeType::Panel`). -/
def TreeNode.isPanel : TreeNode → Bool
  | .panel _ _ _ _ _ => true
  | .split _ _ _ _ _ _ => false

/-- Child of a node in a given slot (`firstChild.get()` /
`secondChild.get()`; panels have no children). -/
def TreeNode.childSlot : TreeNode → Slot → Option TreeNode
  | .panel _ _ _ _ _, _ => none
  | .split _ _ _ _ f _, .first => f
  | .split _ _ _ _ _ s, .second => s

/-- Node reached from `t` by following a path of child slots.  A path is
the functional stand-in for a node pointer into the tree rooted at `t`. -/
def subtreeAt : TreeNode → List Slot → Option TreeNode
  | t, [] => some t
  | t, d :: p =>
    match t.childSlot d with
    | some c => subtreeAt c p
    | none => none

/-- Node reached from an optional root by a path. -/
def nodeAtPath (root : Option TreeNode) (p : List Slot) : Option TreeNode :=
  match root with
  | none => none
  | some t => subtreeAt t p

/-- `t` with the subtree at path `p` replaced by `rep` (and unchanged
everywhere else).  Used to state where a mutation puts a subtree. -/
def replaceSubtree : TreeNode → List Slot → TreeNode → TreeNode
  | _, [], rep => rep
  | .panel i ti q c m, _ :: _, _ => .panel i ti q c m
  | .split i o r m f s, .first :: p, rep =>
      .split i o r m (f.map (fun c => replaceSubtree c p rep)) s
  | .split i o r m f s, .second :: p, rep =>
      .split i o r m f (s.map (fun c => replaceSubtree c p rep))

namespace SplitTreeModel

/-- State of a `SplitTreeModel` instance: the owned root, the cached
`m_panelCount`, the global `m_minPanelSize` and the `m_nodeIdCounter` used
by `generateNodeId`. -/
structure State where
  root : Option TreeNode
  panelCount : Nat
  minPanelSize : Rat
  nodeIdCounter : Nat
deriving Repr

/-- Initial state of a freshly constructed model. -/
def initState : State :=
  { root := none, panelCount := 0, minPanelSize := 150, nodeIdCounter := 0 }

/-- Panel-leaf count of the subtree under a node (the recursion of
`SplitTreeModel::countPanels`). -/
def countPanelsT : TreeNode → Nat
  | .panel _ _ _ _ _ => 1
  | .split _ _ _ _ f s =>
    (match f with | some c => countPanelsT c | none => 0)
    + (match s with | some c => countPanelsT c | none => 0)

/-- `SplitTreeModel::countPanels`: number of panel leaves reachable from a
node (null → 0). -/
def countPanels : Option TreeNode → Nat
  | none => 0
  | some t => countPanelsT t

/-- The recursion of `SplitTreeModel::findNodeById` on a non-null node:
preorder search (node itself, then first child, then second child) for
the first node whose `id` matches, as a path. -/
def findNodeByIdT (t : TreeNode) (nodeId : String) : Option (List Slot) :=
  if t.nid = nodeId then some []
  else
    match t with
    | .panel _ _ _ _ _ => none
    | .split _ _ _ _ f s =>
      match (match f with | some c => findNodeByIdT c nodeId | none => none) with
      | some p => some (.first :: p)
      | none =>
        match (match s with | some c => findNodeByIdT c nodeId | none => none) with
        | some p => some (.second :: p)
        | none => none

/-- `SplitTreeModel::findNodeById`, returning the path to the node instead
of a pointer; the search refuses null nodes and empty identifiers. -/
def findNodeById (root : Option TreeNode) (nodeId : String) : Option (List Slot) :=
  match root with
  | none => none
  | some t => if nodeId = "" then none else findNodeByIdT t nodeId

/-- The recursion of `SplitTreeModel::findRightmostPanel`: descend
preferring the second child; if no panel is found there, fall back to the
first child. -/
def findRightmostPanelT : TreeNode → Option (List Slot)
  | .panel _ _ _ _ _ => some []
  | .split _ _ _ _ f s =>
    match (match s with | some c => findRightmostPanelT c | none => none) with
    | some p => some (.second :: p)
    | none =>
      match f with
      | some c => (findRightmostPanelT c).map (fun p => Slot.first :: p)
      | none => none

/-- `SplitTreeModel::findRightmostPanel` as a path (null → none). -/
def findRightmostPanel : Option TreeNode → Option (List Slot)
  | none => none
  | some t => findRightmostPanelT t

/-- `SplitTreeModel::createPanelNode`: a panel leaf with `canClose = true`
and `minSize = m_minPanelSize`. -/
def createPanelNode (st : State) (panelId title qmlSource : String) : TreeNode :=
  .panel panelId title qmlSource true st.minPanelSize

/-- `SplitTreeModel::generateNodeId`: `"node_%1".arg(++m_nodeIdCounter)`. -/
def generateNodeId (st : State) : String × State :=
  ("node_" ++ toString (st.nodeIdCounter + 1),
   { st with nodeIdCounter := st.nodeIdCounter + 1 })

/-- The direction switch at the head of `SplitTreeModel::insertPanelAt`:
orientation and `reverseOrder` for each drop zone; `none` for the
`default:` branch (invalid drop zone). -/
def zoneOrder : DropZone → Option (Orientation × Bool)
  | .left => some (.vertical, true)
  | .right => some (.vertical, false)
  | .top => some (.horizontal, true)
  | .bottom => some (.horizontal, false)
  | _ => none

/-- The re-attachment step of `SplitTreeModel::insertPanelAt` at the
target's parent: the target in slot `d` of `parent` has been moved out
into `container`; the container is stored into the parent's first slot if
that is now empty, otherwise into the second (`parent->firstChild.get() ==
nullptr ? firstChild : secondChild`). -/
def attachContainer (parent : TreeNode) (d : Slot) (container : TreeNode) : TreeNode :=
  match parent, d with
  | .split i o r m _ s, .first => .split i o r m (some container) s
  | .split i o r m f _, .second =>
    match f with
    | none => .split i o r m (some container) none
    | some fc => .split i o r m (some fc) (some container)
  | .panel i ti q c m, _ => .panel i ti q c m

/-- Walk to the parent of the target (path must be nonempty) and perform
the local surgery of `SplitTreeModel::insertPanelAt`: detach the target,
wrap it via `mk` into the new split container, re-attach. -/
def insertSplitAt (t : TreeNode) (path : List Slot) (mk : TreeNode → TreeNode) : TreeNode :=
  match path with
  | [] => t
  | [d] =>
    match t.childSlot d with
    | some target => attachContainer t d (mk target)
    | none => t
  | d :: rest =>
    match t, d with
    | .split i o r m f s, .first =>
        .split i o r m (f.map (fun c => insertSplitAt c rest mk)) s
    | .split i o r m f s, .second =>
        .split i o r m f (s.map (fun c => insertSplitAt c rest mk))
    | .panel i ti q c m, _ => .panel i ti q c m

/-- `SplitTreeModel::insertPanelAt(panel, targetNode, zone)`.  The target
pointer is given as the path to the target in the current tree.  Returns
the C++ `bool` together with the state after the call
(`updatePanelCount` recomputes `m_panelCount` from the tree). -/
def insertPanelAt (st : State) (panel : TreeNode) (targetPath : List Slot)
    (zone : DropZone) : Bool × State :=
  match zoneOrder zone with
  | none => (false, st)
  | some (orientation, reverseOrder) =>
    match st.root with
    | none => (false, st)
    | some rootT =>
      let idSt := generateNodeId st
      let mk : TreeNode → TreeNode := fun target =>
        if reverseOrder then
          .split idSt.1 orientation (mkRat 1 2) st.minPanelSize (some panel) (some target)
        else
          .split idSt.1 orientation (mkRat 1 2) st.minPanelSize (some target) (some panel)
      let newRoot : TreeNode :=
        match targetPath with
        | [] => mk rootT
        | _ :: _ => insertSplitAt rootT targetPath mk
      (true, { idSt.2 with root := some newRoot,
                           panelCount := countPanels (some newRoot) })

/-- `SplitTreeModel::addPanelAt`: reject empty ids and ids already present
anywhere in the tree; an empty tree makes the new panel the root; an
unresolved target id falls back to the root (`if (!target) target =
m_root.get()`). -/
def addPanelAt (st : State) (panelId title qmlSource targetId : String)
    (dropZone : DropZone) : Bool × State :=
  if panelId = "" then (false, st)
  else if (findNodeById st.root panelId).isSome then (false, st)
  else
    let panel := createPanelNode st panelId title qmlSource
    match st.root with
    | none =>
      (true, { st with root := some panel, panelCount := countPanels (some panel) })
    | some _ =>
      let targetPath :=
        match findNodeById st.root targetId with
        | some p => p
        | none => []
      insertPanelAt st panel targetPath dropZone

/-- `SplitTreeModel::addPanel`: like `addPanelAt` but the target is the
rightmost panel (fallback: the root) and the zone is `Bottom`. -/
def addPanel (st : State) (panelId title qmlSource : String) : Bool × State :=
  if panelId = "" then (false, st)
  else if (findNodeById st.root panelId).isSome then (false, st)
  else
    let panel := createPanelNode st panelId title qmlSource
    match st.root with
    | none =>
      (true, { st with root := some panel, panelCount := countPanels (some panel) })
    | some _ =>
      let targetPath :=
        match findRightmostPanel st.root with
        | some p => p
        | none => []
      insertPanelAt st panel targetPath .bottom

/-- The non-root part of `SplitTreeModel::removePanel` for a removed leaf
strictly below a root split: walking the path, the leaf's parent split is
replaced (in its grandparent's slot) by the leaf's sibling subtree when
the sibling exists; with no sibling the parent is kept, with the leaf's
slot cleared (`if (grandParent && sibling)` guards the promotion). -/
def removeSub : TreeNode → List Slot → Option TreeNode
  | t, [] => some t
  | t, [d] =>
    match t, d with
    | .split i o r m _ s, .first =>
      match s with
      | some sib => some sib
      | none => some (.split i o r m none none)
    | .split i o r m f _, .second =>
      match f with
      | some sib => some sib
      | none => some (.split i o r m none none)
    | .panel i ti q c m, _ => some (.panel i ti q c m)
  | t, d :: rest =>
    match t, d with
    | .split i o r m f s, .first =>
        some (.split i o r m (f.map (fun c => (removeSub c rest).getD c)) s)
    | .split i o r m f s, .second =>
        some (.split i o r m f (s.map (fun c => (removeSub c rest).getD c)))
    | .panel i ti q c m, _ => some (.panel i ti q c m)

/-- `SplitTreeModel::removePanel`: resolve the id (preorder search), fail
unless it names a panel leaf; a root leaf clears the tree; a leaf under
the root split makes the sibling (or nothing) the new root; deeper leaves
go through sibling promotion at the grandparent (`removeSub`).
`updatePanelCount` recomputes the count at the end. -/
def removePanel (st : State) (panelId : String) : Bool × State :=
  match findNodeById st.root panelId with
  | none => (false, st)
  | some path =>
    match nodeAtPath st.root path with
    | none => (false, st)
    | some node =>
      if node.isPanel = false then (false, st)
      else
        match path, st.root with
        | [], _ =>
          (true, { st with root := none, panelCount := 0 })
        | [d], some (.split i o r m f s) =>
          let sibling := (TreeNode.split i o r m f s).childSlot d.other
          (true, { st with root := sibling, panelCount := countPanels sibling })
        | [_], some (.panel _ _ _ _ _) => (false, st)
        | [_], none => (false, st)
        | _ :: _ :: _, none => (false, st)
        | d :: e :: rest, some rootT =>
          let newRoot := removeSub rootT (d :: e :: rest)
          (true, { st with root := newRoot, panelCount := countPanels newRoot })

/-- `SplitTreeModel::updateSplitRatio`: resolve the container id, require
a split node, then `setData(..., SplitRatioRole)` stores
`qBound(0.1, ratio, 0.9)`.  `createIndexForNode` returns an invalid
`QModelIndex` for the root node and `setData` rejects invalid indexes, so
updating the root split is a failing no-op. -/
def updateSplitRatio (st : State) (containerId : String) (ratio : Rat) : Bool × State :=
  match findNodeById st.root containerId with
  | none => (false, st)
  | some path =>
    match nodeAtPath st.root path, st.root with
    | some (.split i o _ m f s), some rootT =>
      match path with
      | [] => (false, st)
      | _ :: _ =>
        let node := TreeNode.split i o (clampValue ratio (mkRat 1 10) (mkRat 9 10)) m f s
        (true, { st with root := some (replaceSubtree rootT path node) })
    | _, _ => (false, st)

/-- `SplitTreeModel::clear`. -/
def clear (st : State) : State :=
  match st.root with
  | none => st
  | some _ => { st with root := none, panelCount := 0 }

/-- `SplitTreeModel::setMinPanelSize`: stores `qBound(50.0, size, 1000.0)`
(the fuzzy-equality guard only suppresses the change signal). -/
def setMinPanelSize (st : State) (size : Rat) : State :=
  { st with minPanelSize := clampValue size 50 1000 }

/-- `SplitTreeModel::TreeNode::toVariantMap`: panels serialise `type, id,
title, qmlSource, canClose, minSize`; splits serialise `type, id,
orientation, splitRatio, minSize` and each present child under
`firstChild` / `secondChild`. -/
def toVariantMap : TreeNode → VariantMap
  | .panel i ti qs c m =>
    [("type", .vstr "panel"), ("id", .vstr i), ("title", .vstr ti),
     ("qmlSource", .vstr qs), ("canClose", .vbool c), ("minSize", .vnum m)]
  | .split i o r m f s =>
    [("type", .vstr "split"), ("id", .vstr i),
     ("orientation", .vstr (if o = .horizontal then "horizontal" else "vertical")),
     ("splitRatio", .vnum r), ("minSize", .vnum m)]
    ++ (match f with
        | some c => [("firstChild", .vmap (toVariantMap c))]
        | none => [])
    ++ (match s with
        | some c => [("secondChild", .vmap (toVariantMap c))]
        | none => [])

/-- `SplitTreeModel::saveLayout`: `version "2.0"`, `model`,
`minPanelSize`, and `root` (only when a root exists). -/
def saveLayout (st : State) : VariantMap :=
  [("version", .vstr "2.0"), ("model", .vstr "DockingTreeModel"),
   ("minPanelSize", .vnum st.minPanelSize)]
  ++ (match st.root with
      | some t => [("root", .vmap (toVariantMap t))]
      | none => [])

/-- `SplitTreeModel::loadNodeFromVariant`: top-down reconstruction keyed
on the `type` tag; `"panel"` and `"split"` are recognised, anything else
yields `none` for the subtree.  `splitRatio` and `minSize` are stored as
read, without clamping.  `minP` is the `m_minPanelSize` in effect, the
default for a missing `minSize`. -/
def loadNodeFromVariant (minP : Rat) (data : VariantMap) : Option TreeNode :=
  let ty := vToString (mvalue data "type")
  let nodeId := vToString (mvalue data "id")
  if ty = "panel" then
    some (.panel nodeId (vToString (mvalue data "title"))
      (vToString (mvalue data "qmlSource"))
      (vToBool (mvalueD data "canClose" (.vbool true)))
      (vToRat (mvalueD data "minSize" (.vnum minP))))
  else if ty = "split" then
    let orientStr := vToString (mvalue data "orientation")
    let orientation :=
      if orientStr = "horizontal" then Orientation.horizontal else Orientation.vertical
    let fc :=
      match hf : mlookup data "firstChild" with
      | some v => loadNodeFromVariant minP (vToMap v)
      | none => none
    let sc :=
      match hs : mlookup data "secondChild" with
      | some v => loadNodeFromVariant minP (vToMap v)
      | none => none
    some (.split nodeId orientation (vToRat (mvalueD data "splitRatio" (.vnum (mkRat 1 2))))
      (vToRat (mvalueD data "minSize" (.vnum minP))) fc sc)
  else none
termination_by msize data
decreasing_by
  · have hv : vsize v < msize data := by
      induction data with
      | nil => simp [mlookup] at hf
      | cons kv rest ih =>
        obtain ⟨k0, v0⟩ := kv
        simp only [mlookup] at hf
        split at hf
        · cases hf
          simp [msize]
          omega
        · have := ih hf
          simp [msize]
          omega
    cases v <;> simp [vToMap, msize, vsize] at hv ⊢ <;> omega
  · have hv : vsize v < msize data := by
      induction data with
      | nil => simp [mlookup] at hs
      | cons kv rest ih =>
        obtain ⟨k0, v0⟩ := kv
        simp only [mlookup] at hs
        split at hs
        · cases hs
          simp [msize]
          omega
        · have := ih hs
          simp [msize]
          omega
    cases v <;> simp [vToMap, msize, vsize] at hv ⊢ <;> omega

/-- `SplitTreeModel::loadLayout`: reject an empty document or a `version`
tag other than exactly `"2.0"` (tree untouched); otherwise reset the
root, take `minPanelSize` from the document when present (unclamped), and
reconstruct the root when present. -/
def loadLayout (st : State) (layout : VariantMap) : Bool × State :=
  match layout with
  | [] => (false, st)
  | _ :: _ =>
    if vToString (mvalue layout "version") = "2.0" then
      let minP :=
        if mcontains layout "minPanelSize" then vToRat (mvalue layout "minPanelSize")
        else st.minPanelSize
      let newRoot :=
        if mcontains layout "root" then loadNodeFromVariant minP (vToMap (mvalue layout "root"))
        else none
      (true, { st with root := newRoot, minPanelSize := minP,
                       panelCount := countPanels newRoot })
    else (false, st)

/-- The state a successful `insertPanelAt` produces when the new split
`container` takes over the tree position `p` of the former target:
root rewritten at `p`, panel count recomputed, one node id consumed. -/
def insertedState (st : State) (t : TreeNode) (p : List Slot)
    (container : TreeNode) : Bool × State :=
  (true, { st with
    root := some (replaceSubtree t p container),
    panelCount := countPanels (some (replaceSubtree t p container)),
    nodeIdCounter := st.nodeIdCounter + 1 })

end SplitTreeModel

/-- Clamping invariant on a node and its descendants: every split's ratio
lies in `[0.1, 0.9]` and every node's minimum size lies in `[50, 1000]`. -/
def ratioMinInvT : TreeNode → Bool
  | .panel _ _ _ _ m => decide ((50 : Rat) ≤ m ∧ m ≤ 1000)
  | .split _ _ r m f s =>
    decide (mkRat 1 10 ≤ r ∧ r ≤ mkRat 9 10 ∧ (50 : Rat) ≤ m ∧ m ≤ 1000)
      && (match f with | some c => ratioMinInvT c | none => true)
      && (match s with | some c => ratioMinInvT c | none => true)

/-- Decidable form of the clamping invariant of the specification, on an
optional root. -/
def ratioMinInv : Option TreeNode → Bool
  | none => true
  | some t => ratioMinInvT t

/-- Well-formedness of a node and its descendants: every split has both
children (the steady-state structural invariant of the specification). -/
def wellFormedT : TreeNode → Bool
  | .panel _ _ _ _ _ => true
  | .split _ _ _ _ f s =>
    (match f with | some c => wellFormedT c | none => false)
      && (match s with | some c => wellFormedT c | none => false)

/-- Decidable well-formedness of an optional root. -/
def wellFormed : Option TreeNode → Bool
  | none => true
  | some t => wellFormedT t

/-- The clamping invariant on a whole `SplitTreeModel` state: the tree
satisfies `ratioMinInv` and the global `m_minPanelSize` lies in
`[50, 1000]`. -/
def stateInv (st : SplitTreeModel.State) : Bool :=
  ratioMinInv st.root
    && decide ((50 : Rat) ≤ st.minPanelSize ∧ st.minPanelSize ≤ 1000)

/-- Identifier of a `DNode` (`node->nodeId()`). -/
def DNode.nid : DNode → String
  | .panel i _ _ _ => i
  | .container i _ _ _ _ _ => i

/-- Child of a `DNode` in a given slot. -/
def DNode.childSlot : DNode → Slot → Option DNode
  | .panel _ _ _ _, _ => none
  | .container _ _ _ _ f _, .first => f
  | .container _ _ _ _ _ s, .second => s

namespace DockingManager

/-- State of a `DockingManager` instance: the owned root, the keys of the
`m_panels` registry (`QHash<QString, PanelNode*>`; the pointer values are
represented by the tree positions of the identically-named nodes, the
registry being consistent with the tree in all states the claims use),
`m_minPanelSize`, `m_nodeIdCounter`, and the process-wide
`static QString currentlyRemoving` reentrancy guard of `removePanel`. -/
structure State where
  root : Option DNode
  panels : List String
  minPanelSize : Rat
  nodeIdCounter : Nat
  currentlyRemoving : String
deriving Repr

/-- The recursion of `DockingManager::countPanels` on a non-null node. -/
def countPanelsT : DNode → Nat
  | .panel _ _ _ _ => 1
  | .container _ _ _ _ f s =>
    (match f with | some c => countPanelsT c | none => 0)
    + (match s with | some c => countPanelsT c | none => 0)

/-- `DockingManager::countPanels` (null → 0). -/
def countPanels : Option DNode → Nat
  | none => 0
  | some t => countPanelsT t

/-- `DockingManager::panelCount`: the size of the registry
(`m_panels.size()`), not a tree traversal. -/
def panelCount (st : State) : Nat :=
  st.panels.length

/-- The recursion of `DockingManager::findNode` on a non-null node. -/
def findNodeT (t : DNode) (nodeId : String) : Option (List Slot) :=
  if t.nid = nodeId then some []
  else
    match t with
    | .panel _ _ _ _ => none
    | .container _ _ _ _ f s =>
      match (match f with | some c => findNodeT c nodeId | none => none) with
      | some p => some (.first :: p)
      | none =>
        match (match s with | some c => findNodeT c nodeId | none => none) with
        | some p => some (.second :: p)
        | none => none

/-- `DockingManager::findNode` as a path: preorder search for the first
node with the given id (no empty-id special case here). -/
def findNode : Option DNode → String → Option (List Slot)
  | none, _ => none
  | some t, nodeId => findNodeT t nodeId

/-- Node of a `DNode` tree reached by a path. -/
def dNodeAtPath (root : Option DNode) : List Slot → Option DNode
  | [] => root
  | d :: p =>
    match root with
    | none => none
    | some t => dNodeAtPath (t.childSlot d) p

/-- `DockingManager::createPanelNode`: a `PanelNode` whose `setMinSize`
clamps `m_minPanelSize` into `[50, 1000]`. -/
def createPanelNode (st : State) (panelId title qmlSource : String) : DNode :=
  .panel panelId title qmlSource (validateMinSize st.minPanelSize)

/-- `DockingManager::registerPanel`: `m_panels[panelId] = panel` (inserts
a new key or overwrites the entry of an existing key). -/
def registerPanel (panels : List String) (panelId : String) : List String :=
  if panels.contains panelId then panels else panels ++ [panelId]

/-- `DockingManager::generateNodeId`. -/
def generateNodeId (st : State) : String × State :=
  ("node_" ++ toString (st.nodeIdCounter + 1),
   { st with nodeIdCounter := st.nodeIdCounter + 1 })

/-- The direction switch of `DockingManager::insertPanelAt`: orientation
and `panelIsFirst`; `none` for the `default:` branch (`Center` or any
other value). -/
def dirOrder : Direction → Option (Orientation × Bool)
  | .left => some (.vertical, true)
  | .right => some (.vertical, false)
  | .top => some (.horizontal, true)
  | .bottom => some (.horizontal, false)
  | .center => none

/-- Re-attachment of the new container into the target's parent:
`parentContainer->firstChild() == nullptr ? setFirstChild : setSecondChild`
after the target was taken out of slot `d`. -/
def attachContainer (parent : DNode) (d : Slot) (container : DNode) : DNode :=
  match parent, d with
  | .container i o r m _ s, .first => .container i o r m (some container) s
  | .container i o r m f _, .second =>
    match f with
    | none => .container i o r m (some container) none
    | some fc => .container i o r m (some fc) (some container)
  | .panel i ti q m, _ => .panel i ti q m

/-- Walk to the target's parent and perform the local surgery of
`DockingManager::insertPanelAt` (take the target out, wrap it via `mk`
into the new container, re-attach). -/
def insertSplitAt (t : DNode) (path : List Slot) (mk : DNode → DNode) : DNode :=
  match path with
  | [] => t
  | [d] =>
    match t.childSlot d with
    | some target => attachContainer t d (mk target)
    | none => t
  | d :: rest =>
    match t, d with
    | .container i o r m f s, .first =>
        .container i o r m (f.map (fun c => insertSplitAt c rest mk)) s
    | .container i o r m f s, .second =>
        .container i o r m f (s.map (fun c => insertSplitAt c rest mk))
    | .panel i ti q c, _ => .panel i ti q c

/-- `DockingManager::insertPanelAt(panel, target, dir)`: the new
`ContainerNode` keeps its constructor defaults `splitRatio = 0.5` and
`minSize = 150`; a root target is wrapped together with the whole tree,
otherwise the surgery happens at the target's parent. -/
def insertPanelAt (st : State) (panel : DNode) (targetPath : List Slot)
    (dir : Direction) : Bool × State :=
  match dirOrder dir with
  | none => (false, st)
  | some (orientation, panelIsFirst) =>
    match st.root with
    | none => (false, st)
    | some rootT =>
      let idSt := generateNodeId st
      let mk : DNode → DNode := fun target =>
        if panelIsFirst then
          .container idSt.1 orientation (mkRat 1 2) 150 (some panel) (some target)
        else
          .container idSt.1 orientation (mkRat 1 2) 150 (some target) (some panel)
      let newRoot : DNode :=
        match targetPath with
        | [] => mk rootT
        | _ :: _ => insertSplitAt rootT targetPath mk
      (true, { idSt.2 with root := some newRoot })

/-- `DockingManager::addPanelAt`: fail when the target id is not found
(before any mutation); otherwise create the panel, register it in
`m_panels` (no duplicate check), and insert.  A failing insert leaves the
panel registered. -/
def addPanelAt (st : State) (panelId title qmlSource targetId : String)
    (direction : Direction) : Bool × State :=
  match findNode st.root targetId with
  | none => (false, st)
  | some targetPath =>
    let panel := createPanelNode st panelId title qmlSource
    let st1 := { st with panels := registerPanel st.panels panelId }
    insertPanelAt st1 panel targetPath direction

/-- The promotion part of `DockingManager::removePanel` below the root:
`promoteSiblingNode` replaces the parent container by the sibling in the
grandparent's slot (a null sibling empties the slot). -/
def removeSub : DNode → List Slot → Option DNode
  | t, [] => some t
  | t, [d] =>
    match t, d with
    | .container _ _ _ _ _ s, .first => s
    | .container _ _ _ _ f _, .second => f
    | .panel i ti q m, _ => some (.panel i ti q m)
  | t, d :: rest =>
    match t, d with
    | .container i o r m f s, .first =>
      match f with
      | some c => some (.container i o r m (removeSub c rest) s)
      | none => some (.container i o r m none s)
    | .container i o r m f s, .second =>
      match s with
      | some c => some (.container i o r m f (removeSub c rest))
      | none => some (.container i o r m f none)
    | .panel i ti q m, _ => some (.panel i ti q m)

/-- `DockingManager::removePanel`: a reentrancy guard rejects a call for
the identifier currently being removed (before touching anything);
otherwise the guard is set for the duration of the call — every return
path below clears it.  The panel is resolved through the registry (an id
registered but absent from the tree is treated as not found, where the
C++ would dereference a dangling pointer), unregistered, and removed with
sibling promotion. -/
def removePanel (st : State) (panelId : String) : Bool × State :=
  if st.currentlyRemoving = panelId then (false, st)
  else
    if st.panels.contains panelId = false then
      (false, { st with currentlyRemoving := "" })
    else
      match findNode st.root panelId with
      | none => (false, { st with currentlyRemoving := "" })
      | some path =>
        let st1 := { st with panels := st.panels.erase panelId,
                             currentlyRemoving := "" }
        match path, st1.root with
        | [], _ => (true, { st1 with root := none })
        | _ :: _, none => (false, st1)
        | d :: rest, some rootT =>
          (true, { st1 with root := removeSub rootT (d :: rest) })

end DockingManager

/-! ### Concrete fixtures used by witnesses and counterexamples -/

/-- A two-panel tree: `Split(Vertical, first = a, second = b)`. -/
def twoPanelTree : TreeNode :=
  .split "s1" .vertical (mkRat 1 2) 150
    (some (.panel "a" "A" "" true 150))
    (some (.panel "b" "B" "" true 150))

/-- A `SplitTreeModel` holding `twoPanelTree`. -/
def stmTwoPanels : SplitTreeModel.State :=
  { root := some twoPanelTree, panelCount := 2, minPanelSize := 150, nodeIdCounter := 1 }

/-- A three-panel tree: `Split(s1, first = a, second = Split(s2, b, c))`. -/
def threePanelTree : TreeNode :=
  .split "s1" .vertical (mkRat 1 2) 150
    (some (.panel "a" "A" "" true 150))
    (some (.split "s2" .horizontal (mkRat 1 2) 150
      (some (.panel "b" "B" "" true 150))
      (some (.panel "c" "C" "" true 150))))

/-- A `SplitTreeModel` holding `threePanelTree`. -/
def stmThreePanels : SplitTreeModel.State :=
  { root := some threePanelTree, panelCount := 3, minPanelSize := 150,
    nodeIdCounter := 2 }

/-- A `SplitTreeModel` holding the single panel `a`. -/
def stmOnePanel : SplitTreeModel.State :=
  { root := some (.panel "a" "A" "" true 150), panelCount := 1,
    minPanelSize := 150, nodeIdCounter := 0 }

/-- A serialised panel document for panel `a`. -/
def panelDocA : VariantMap :=
  [("type", .vstr "panel"), ("id", .vstr "a"), ("title", .vstr "A"),
   ("qmlSource", .vstr ""), ("canClose", .vbool true), ("minSize", .vnum 150)]

/-- A version-`"2.0"` layout document whose root split carries
`splitRatio = 5` and `minSize = 2000`, both far outside their clamped
ranges. -/
def outOfRangeDoc : VariantMap :=
  [("version", .vstr "2.0"),
   ("root", .vmap
     [("type", .vstr "split"), ("id", .vstr "s"), ("orientation", .vstr "vertical"),
      ("splitRatio", .vnum 5), ("minSize", .vnum 2000),
      ("firstChild", .vmap panelDocA),
      ("secondChild", .vmap
        [("type", .vstr "panel"), ("id", .vstr "b"), ("title", .vstr "B"),
         ("qmlSource", .vstr ""), ("canClose", .vbool true), ("minSize", .vnum 150)])])]

/-- A `DockingManager` holding the single registered panel `a`. -/
def dmOnePanel : DockingManager.State :=
  { root := some (.panel "a" "A" "" 150), panels := ["a"],
    minPanelSize := 150, nodeIdCounter := 0, currentlyRemoving := "" }

/-- An empty `DockingManager`. -/
def dmEmpty : DockingManager.State :=
  { root := none, panels := [], minPanelSize := 150, nodeIdCounter := 0,
    currentlyRemoving := "" }

/-! ### Lemmas about the `SplitTreeModel` tree surgery -/

theorem removeSub_eq_replace (q : List Slot) (d : Slot)
    (t leaf sibling : TreeNode)
    (hleaf : subtreeAt t (q ++ [d]) = some leaf)
    (hsib : subtreeAt t (q ++ [d.other]) = some sibling) :
    SplitTreeModel.removeSub t (q ++ [d]) = some (replaceSubtree t q sibling) := by
  induction q generalizing t with
  | nil =>
    cases t with
    | panel i ti qs c m => simp [subtreeAt, TreeNode.childSlot] at hleaf
    | split i o r m f s =>
      cases d with
      | first =>
        cases s with
        | none => simp [subtreeAt, TreeNode.childSlot, Slot.other] at hsib
        | some sib =>
          simp [subtreeAt, TreeNode.childSlot, Slot.other] at hsib
          simp [SplitTreeModel.removeSub, replaceSubtree, hsib]
      | second =>
        cases f with
        | none => simp [subtreeAt, TreeNode.childSlot, Slot.other] at hsib
        | some fc =>
          simp [subtreeAt, TreeNode.childSlot, Slot.other] at hsib
          simp [SplitTreeModel.removeSub, replaceSubtree, hsib]
  | cons e q2 ih =>
    cases t with
    | panel i ti qs c m => simp [subtreeAt, TreeNode.childSlot] at hleaf
    | split i o r m f s =>
      cases e with
      | first =>
        cases f with
        | none => simp [subtreeAt, TreeNode.childSlot] at hleaf
        | some fc =>
          simp only [List.cons_append, subtreeAt, TreeNode.childSlot] at hleaf hsib
          have := ih fc hleaf hsib
          cases hq : q2 ++ [d] with
          | nil => simp at hq
          | cons x xs =>
            rw [hq] at this
            simp [List.cons_append, SplitTreeModel.removeSub, hq, this, replaceSubtree]
      | second =>
        cases s with
        | none => simp [subtreeAt, TreeNode.childSlot] at hleaf
        | some sc =>
          simp only [List.cons_append, subtreeAt, TreeNode.childSlot] at hleaf hsib
          have := ih sc hleaf hsib
          cases hq : q2 ++ [d] with
          | nil => simp at hq
          | cons x xs =>
            rw [hq] at this
            simp [List.cons_append, SplitTreeModel.removeSub, hq, this, replaceSubtree]

/-! ### Claim C1 -/

/-- C1.  Removing a leaf panel whose sibling subtree is `sibling` makes
`sibling` occupy exactly the tree position `q` previously held by the
removed leaf's parent split, with `sibling` itself (identifier and
descendants) unchanged: for `q = []` the parent was the root and `sibling`
becomes the new root (parent links are positional in this embedding, so
the promoted subtree's parent link is by construction the grandparent,
or cleared at the root). -/
theorem removePanel_promotes_sibling
    (st : SplitTreeModel.State) (t leaf sibling : TreeNode)
    (q : List Slot) (d : Slot) (panelId : String)
    (hroot : st.root = some t)
    (hfind : SplitTreeModel.findNodeById st.root panelId = some (q ++ [d]))
    (hleaf : nodeAtPath st.root (q ++ [d]) = some leaf)
    (hpanel : leaf.isPanel = true)
    (hsib : nodeAtPath st.root (q ++ [d.other]) = some sibling) :
    SplitTreeModel.removePanel st panelId =
      (true, { st with
        root := some (replaceSubtree t q sibling),
        panelCount := SplitTreeModel.countPanels (some (replaceSubtree t q sibling)) }) := by
  rw [hroot] at hleaf hsib
  simp only [nodeAtPath] at hleaf hsib
  unfold SplitTreeModel.removePanel
  rw [hfind, hroot]
  simp only [nodeAtPath, hleaf, hpanel]
  cases q with
  | nil =>
    cases t with
    | panel i ti qs c m => simp [subtreeAt, TreeNode.childSlot] at hleaf
    | split i o r m f s =>
      simp only [List.nil_append] at hleaf hsib ⊢
      cases d with
      | first =>
        cases s with
        | none => simp [subtreeAt, TreeNode.childSlot, Slot.other] at hsib
        | some sib =>
          simp only [subtreeAt, TreeNode.childSlot, Slot.other] at hsib
          simp [TreeNode.childSlot, Slot.other, hsib, replaceSubtree]
      | second =>
        cases f with
        | none => simp [subtreeAt, TreeNode.childSlot, Slot.other] at hsib
        | some fc =>
          simp only [subtreeAt, TreeNode.childSlot, Slot.other] at hsib
          simp [TreeNode.childSlot, Slot.other, hsib, replaceSubtree]
  | cons e q2 =>
    have hrem := removeSub_eq_replace (e :: q2) d t leaf sibling hleaf hsib
    cases hq : q2 ++ [d] with
    | nil => simp at hq
    | cons x xs =>
      simp only [List.cons_append, hq] at hrem ⊢
      simp [hrem]

/-- Witness for C1: removing `a` from the two-panel tree
`Split(first = a, second = b)` promotes `b` to the root. -/
theorem removePanel_promotes_sibling_witness :
    SplitTreeModel.removePanel stmTwoPanels "a" =
      (true, { root := some (.panel "b" "B" "" true 150), panelCount := 1,
               minPanelSize := 150, nodeIdCounter := 1 }) :=
  removePanel_promotes_sibling stmTwoPanels twoPanelTree
    (.panel "a" "A" "" true 150) (.panel "b" "B" "" true 150) [] .first "a"
    rfl rfl rfl rfl rfl

/-! ### Claim C2 -/

theorem insertSplitAt_eq_replace (p : List Slot) (t target : TreeNode)
    (mk : TreeNode → TreeNode)
    (hwf : wellFormed (some t) = true)
    (htarget : subtreeAt t p = some target) (hne : p ≠ []) :
    SplitTreeModel.insertSplitAt t p mk = replaceSubtree t p (mk target) := by
  induction p generalizing t with
  | nil => exact absurd rfl hne
  | cons d rest ih =>
    cases t with
    | panel i ti qs c m => simp [subtreeAt, TreeNode.childSlot] at htarget
    | split i o r m f s =>
      unfold wellFormed wellFormedT at hwf
      cases f with
      | none => simp at hwf
      | some fc =>
      cases s with
      | none => simp at hwf
      | some sc =>
      simp only [Bool.and_eq_true] at hwf
      obtain ⟨hwfF, hwfS⟩ := hwf
      cases rest with
      | nil =>
        cases d with
        | first =>
          simp only [subtreeAt, TreeNode.childSlot] at htarget
          cases htarget
          simp [SplitTreeModel.insertSplitAt, TreeNode.childSlot,
            SplitTreeModel.attachContainer, replaceSubtree]
        | second =>
          simp only [subtreeAt, TreeNode.childSlot] at htarget
          cases htarget
          simp [SplitTreeModel.insertSplitAt, TreeNode.childSlot,
            SplitTreeModel.attachContainer, replaceSubtree]
      | cons x xs =>
        cases d with
        | first =>
          simp only [subtreeAt, TreeNode.childSlot] at htarget
          simp [SplitTreeModel.insertSplitAt, replaceSubtree,
            ih fc hwfF htarget (by simp)]
        | second =>
          simp only [subtreeAt, TreeNode.childSlot] at htarget
          simp [SplitTreeModel.insertSplitAt, replaceSubtree,
            ih sc hwfS htarget (by simp)]


/-! ### Claim C3 -/

theorem loadNode_toVariantMap_aux :
    ∀ (n : Nat) (t : TreeNode), sizeOf t = n → ∀ (minP : Rat),
      SplitTreeModel.loadNodeFromVariant minP (SplitTreeModel.toVariantMap t) = some t := by
  intro n
  induction n using Nat.strong_induction_on with
  | _ n ih =>
    intro t hn minP
    cases t with
    | panel i ti qs c m =>
      rw [SplitTreeModel.loadNodeFromVariant]
      simp [SplitTreeModel.toVariantMap, mvalue, mvalueD, mlookup, vToString,
        vToBool, vToRat]
    | split i o r m f s =>
      have hf : ∀ fc, f = some fc →
          SplitTreeModel.loadNodeFromVariant minP (SplitTreeModel.toVariantMap fc) = some fc := by
        intro fc hfc
        refine ih (sizeOf fc) ?_ fc rfl minP
        subst hn hfc
        simp
        omega
      have hs : ∀ sc, s = some sc →
          SplitTreeModel.loadNodeFromVariant minP (SplitTreeModel.toVariantMap sc) = some sc := by
        intro sc hsc
        refine ih (sizeOf sc) ?_ sc rfl minP
        subst hn hsc
        simp
        omega
      rw [SplitTreeModel.loadNodeFromVariant]
      cases o <;> cases f <;> cases s <;>
        simp_all [SplitTreeModel.toVariantMap, mvalue, mvalueD, mlookup, vToString,
          vToBool, vToRat, vToMap]

theorem loadNode_toVariantMap (t : TreeNode) (minP : Rat) :
    SplitTreeModel.loadNodeFromVariant minP (SplitTreeModel.toVariantMap t) = some t :=
  loadNode_toVariantMap_aux (sizeOf t) t rfl minP

/-- C3.  Round-trip: loading the document produced by saving any model
state (empty tree included) reconstructs a tree equal to the saved one —
same node kinds, identifiers, child order, orientations, split ratios,
titles, content references and minimum sizes — and restores
`minPanelSize`; the panel count is recomputed accordingly. -/
theorem loadLayout_saveLayout_roundtrip (st target : SplitTreeModel.State) :
    SplitTreeModel.loadLayout target (SplitTreeModel.saveLayout st) =
      (true, { target with
        root := st.root,
        minPanelSize := st.minPanelSize,
        panelCount := SplitTreeModel.countPanels st.root }) := by
  unfold SplitTreeModel.saveLayout SplitTreeModel.loadLayout
  cases hroot : st.root with
  | none =>
    simp [mvalue, mcontains, mlookup, vToString, vToRat, SplitTreeModel.countPanels]
  | some t =>
    simp [mvalue, mcontains, mlookup, vToString, vToRat, vToMap,
      loadNode_toVariantMap, SplitTreeModel.countPanels]

/-- C2.  On a well-formed tree, inserting a new leaf next to the target at
position `p` produces a new split in exactly that position, whose
orientation is Vertical for Left/Right and Horizontal for Top/Bottom, with
the new leaf as first child for Left/Top and second child for Right/Bottom
and the target subtree occupying the other slot unchanged. -/
theorem insertPanelAt_direction_placement
    (st : SplitTreeModel.State) (t target panel : TreeNode) (p : List Slot)
    (hroot : st.root = some t)
    (hwf : wellFormed (some t) = true)
    (htarget : nodeAtPath st.root p = some target) :
    SplitTreeModel.insertPanelAt st panel p .left =
      SplitTreeModel.insertedState st t p
        (.split (SplitTreeModel.generateNodeId st).1 .vertical (mkRat 1 2) st.minPanelSize
          (some panel) (some target)) ∧
    SplitTreeModel.insertPanelAt st panel p .right =
      SplitTreeModel.insertedState st t p
        (.split (SplitTreeModel.generateNodeId st).1 .vertical (mkRat 1 2) st.minPanelSize
          (some target) (some panel)) ∧
    SplitTreeModel.insertPanelAt st panel p .top =
      SplitTreeModel.insertedState st t p
        (.split (SplitTreeModel.generateNodeId st).1 .horizontal (mkRat 1 2) st.minPanelSize
          (some panel) (some target)) ∧
    SplitTreeModel.insertPanelAt st panel p .bottom =
      SplitTreeModel.insertedState st t p
        (.split (SplitTreeModel.generateNodeId st).1 .horizontal (mkRat 1 2) st.minPanelSize
          (some target) (some panel)) := by
  rw [hroot] at htarget
  simp only [nodeAtPath] at htarget
  refine ⟨?_, ?_, ?_, ?_⟩ <;>
  · unfold SplitTreeModel.insertPanelAt
    rw [hroot]
    cases p with
    | nil =>
      simp only [subtreeAt] at htarget
      cases htarget
      simp [SplitTreeModel.zoneOrder, SplitTreeModel.insertedState,
        SplitTreeModel.generateNodeId, replaceSubtree]
    | cons d rest =>
      have hins := fun mk =>
        insertSplitAt_eq_replace (d :: rest) t target mk hwf htarget (by simp)
      simp [SplitTreeModel.zoneOrder, SplitTreeModel.insertedState,
        SplitTreeModel.generateNodeId, hins]

/-- Witness for C2: inserting `c` to the right of `b` in
`Split(first = a, second = b)` creates `Split(Vertical, first = b,
second = c)` in `b`'s position. -/
theorem insertPanelAt_direction_placement_witness :
    SplitTreeModel.insertPanelAt stmTwoPanels (.panel "c" "C" "" true 150)
        [Slot.second] .right =
      SplitTreeModel.insertedState stmTwoPanels twoPanelTree [Slot.second]
        (.split "node_2" .vertical (mkRat 1 2) 150 (some (.panel "b" "B" "" true 150))
          (some (.panel "c" "C" "" true 150))) :=
  (insertPanelAt_direction_placement stmTwoPanels twoPanelTree
    (.panel "b" "B" "" true 150) (.panel "c" "C" "" true 150) [Slot.second]
    rfl rfl rfl).2.1

/-! ### Claim C5 -/

/-- C5.  The reentrancy guard of `DockingManager::removePanel`: while a
removal of `panelId` is in progress (the guard holds that identifier), a
nested or overlapping `removePanel` call for the same identifier returns
`false` and leaves the state — tree, registry and guard — completely
unchanged, so the enclosing removal mutates the tree exactly once. -/
theorem removePanel_reentrancy_guard (st : DockingManager.State) (panelId : String)
    (h : st.currentlyRemoving = panelId) :
    DockingManager.removePanel st panelId = (false, st) := by
  unfold DockingManager.removePanel
  simp [h]

/-- Witness for C5: with a removal of `a` in flight, a nested
`removePanel "a"` is rejected without touching the state. -/
theorem removePanel_reentrancy_guard_witness :
    DockingManager.removePanel
        { dmOnePanel with currentlyRemoving := "a" } "a" =
      (false, { dmOnePanel with currentlyRemoving := "a" }) :=
  removePanel_reentrancy_guard { dmOnePanel with currentlyRemoving := "a" } "a" rfl

/-! ### Claim C6 -/

/-- Counterexample to C6 as stated: in `SplitTreeModel::addPanelAt` an
unresolved target identifier does not fail the operation — the target
falls back to the root and the insert proceeds.  With a single panel `a`
and the nonexistent target `zzz`, the call returns `true` and the tree is
mutated into a split of `a` and the new panel `b`. -/
theorem addPanelAt_missing_target_counterexample :
    (SplitTreeModel.addPanelAt stmOnePanel "b" "B" "" "zzz" .right).1 = true ∧
    (SplitTreeModel.addPanelAt stmOnePanel "b" "B" "" "zzz" .right).2.root =
      some (.split "node_1" .vertical (mkRat 1 2) 150
        (some (.panel "a" "A" "" true 150)) (some (.panel "b" "B" "" true 150))) :=
  ⟨rfl, rfl⟩

/-- C6 (amended).  In `DockingManager::addPanelAt` an unresolved target
identifier makes the operation fail with the state completely unchanged —
no node created, attached or registered; in `SplitTreeModel::addPanelAt`
the unresolved target instead falls back to the root and the insert
proceeds. -/
theorem addPanelAt_missing_target_fails (st : DockingManager.State)
    (panelId title qmlSource targetId : String) (direction : Direction)
    (h : DockingManager.findNode st.root targetId = none) :
    DockingManager.addPanelAt st panelId title qmlSource targetId direction =
      (false, st) := by
  unfold DockingManager.addPanelAt
  simp [h]

/-- Witness for the amended C6: inserting into an empty manager with an
unresolved target fails and changes nothing. -/
theorem addPanelAt_missing_target_fails_witness :
    DockingManager.addPanelAt dmEmpty "p" "P" "" "missing" .right =
      (false, dmEmpty) :=
  addPanelAt_missing_target_fails dmEmpty "p" "P" "" "missing" .right rfl

/-! ### Claim C7 -/

/-- Counterexample to C7 as stated: `DockingManager::addPanelAt` performs
no duplicate check at all.  Inserting a second panel with the already
registered identifier `a` succeeds, puts two leaves named `a` in the
tree, and silently overwrites the registry entry. -/
theorem addPanelAt_duplicate_counterexample :
    DockingManager.addPanelAt dmOnePanel "a" "A2" "" "a" .right =
      (true,
        { root := some (.container "node_1" .vertical (mkRat 1 2) 150
            (some (.panel "a" "A" "" 150)) (some (.panel "a" "A2" "" 150))),
          panels := ["a"], minPanelSize := 150, nodeIdCounter := 1,
          currentlyRemoving := "" }) := rfl

/-- C7 (amended).  `SplitTreeModel::addPanelAt` rejects a new-leaf
identifier that already names any node of the tree, before any mutation
(the whole state is returned unchanged); `DockingManager::addPanelAt`
has no duplicate check and a duplicate insert succeeds. -/
theorem addPanelAt_duplicate_fails (st : SplitTreeModel.State)
    (panelId title qmlSource targetId : String) (dropZone : DropZone)
    (h : (SplitTreeModel.findNodeById st.root panelId).isSome = true) :
    SplitTreeModel.addPanelAt st panelId title qmlSource targetId dropZone =
      (false, st) := by
  unfold SplitTreeModel.addPanelAt
  by_cases hemp : panelId = "" <;> simp [hemp, h]

/-- Witness for the amended C7: re-adding `a` to the one-panel tree is
rejected with the state unchanged. -/
theorem addPanelAt_duplicate_fails_witness :
    SplitTreeModel.addPanelAt stmOnePanel "a" "A2" "" "a" .right =
      (false, stmOnePanel) :=
  addPanelAt_duplicate_fails stmOnePanel "a" "A2" "" "a" .right rfl

/-! ### Claim C8 -/

/-- C8.  `SplitTreeModel::loadLayout` rejects any document whose version
tag is not exactly `"2.0"`: the call returns `false` and the model state
(tree, counts, settings) is left completely unchanged — no partial
reconstruction happens. -/
theorem loadLayout_version_mismatch (st : SplitTreeModel.State)
    (layout : VariantMap)
    (h : vToString (mvalue layout "version") ≠ "2.0") :
    SplitTreeModel.loadLayout st layout = (false, st) := by
  unfold SplitTreeModel.loadLayout
  cases layout with
  | nil => rfl
  | cons kv rest => simp [h]

/-- Witness for C8: a version-`"1.0"` document is rejected with the state
unchanged. -/
theorem loadLayout_version_mismatch_witness :
    SplitTreeModel.loadLayout SplitTreeModel.initState
        [("version", .vstr "1.0")] =
      (false, SplitTreeModel.initState) :=
  loadLayout_version_mismatch SplitTreeModel.initState
    [("version", .vstr "1.0")] (by decide)

/-! ### Claim C9 -/

/-- C9.  During load, a node document whose `type` tag is neither
`"panel"` nor `"split"` yields `none` for that subtree; and inside a
split document such an unrecognised child simply leaves that child slot
empty while the sibling child and the rest of the load complete
normally. -/
theorem loadNode_unrecognized_type (minP : Rat) :
    (∀ data : VariantMap,
        vToString (mvalue data "type") ≠ "panel" →
        vToString (mvalue data "type") ≠ "split" →
        SplitTreeModel.loadNodeFromVariant minP data = none) ∧
    (∀ (bad good : VariantMap) (g : TreeNode) (i os : String) (r m : Rat),
        vToString (mvalue bad "type") ≠ "panel" →
        vToString (mvalue bad "type") ≠ "split" →
        SplitTreeModel.loadNodeFromVariant minP good = some g →
        SplitTreeModel.loadNodeFromVariant minP
          [("type", .vstr "split"), ("id", .vstr i), ("orientation", .vstr os),
           ("splitRatio", .vnum r), ("minSize", .vnum m),
           ("firstChild", .vmap bad), ("secondChild", .vmap good)] =
          some (.split i (if os = "horizontal" then .horizontal else .vertical)
            r m none (some g))) := by
  constructor
  · intro data h1 h2
    unfold SplitTreeModel.loadNodeFromVariant
    simp [h1, h2]
  · intro bad good g i os r m h1 h2 hgood
    have hbad : SplitTreeModel.loadNodeFromVariant minP bad = none := by
      unfold SplitTreeModel.loadNodeFromVariant
      simp [h1, h2]
    unfold SplitTreeModel.loadNodeFromVariant
    simp [mvalue, mvalueD, mlookup, vToString, vToRat, vToMap, hbad, hgood]

/-- Witness for C9: a split document whose first child has type tag
`"mystery"` loads as a split with an empty first slot and the intact
panel `a` in the second slot. -/
theorem loadNode_unrecognized_type_witness :
    SplitTreeModel.loadNodeFromVariant 150
      [("type", .vstr "split"), ("id", .vstr "s"), ("orientation", .vstr "vertical"),
       ("splitRatio", .vnum (mkRat 1 2)), ("minSize", .vnum 150),
       ("firstChild", .vmap [("type", .vstr "mystery")]),
       ("secondChild", .vmap panelDocA)] =
      some (.split "s" .vertical (mkRat 1 2) 150 none
        (some (.panel "a" "A" "" true 150))) :=
  (loadNode_unrecognized_type 150).2 [("type", .vstr "mystery")] panelDocA
    (.panel "a" "A" "" true 150) "s" "vertical" (mkRat 1 2) 150
    (by decide) (by decide)
    (by
      unfold SplitTreeModel.loadNodeFromVariant
      simp [panelDocA, mvalue, mvalueD, mlookup, vToString, vToBool, vToRat])

/-! ### Claim C4 -/

theorem ratioMinInvT_split_iff {i : String} {o : Orientation} {r m : Rat}
    {f s : Option TreeNode} :
    ratioMinInvT (.split i o r m f s) = true ↔
      (mkRat 1 10 ≤ r ∧ r ≤ mkRat 9 10 ∧ (50 : Rat) ≤ m ∧ m ≤ 1000)
      ∧ (∀ fc, f = some fc → ratioMinInvT fc = true)
      ∧ (∀ sc, s = some sc → ratioMinInvT sc = true) := by
  cases f <;> cases s <;>
    simp [ratioMinInvT, Bool.and_eq_true, decide_eq_true_eq, and_assoc]

theorem ratioMinInvT_subtreeAt (p : List Slot) :
    ∀ (t c : TreeNode), ratioMinInvT t = true → subtreeAt t p = some c →
      ratioMinInvT c = true := by
  induction p with
  | nil =>
    intro t c h hc
    simp [subtreeAt] at hc
    subst hc
    exact h
  | cons d rest ih =>
    intro t c h hc
    cases t with
    | panel i ti qs cc m => simp [subtreeAt, TreeNode.childSlot] at hc
    | split i o r m f s =>
      rw [ratioMinInvT_split_iff] at h
      cases d with
      | first =>
        cases f with
        | none => simp [subtreeAt, TreeNode.childSlot] at hc
        | some fc =>
          simp only [subtreeAt, TreeNode.childSlot] at hc
          exact ih fc c (h.2.1 fc rfl) hc
      | second =>
        cases s with
        | none => simp [subtreeAt, TreeNode.childSlot] at hc
        | some sc =>
          simp only [subtreeAt, TreeNode.childSlot] at hc
          exact ih sc c (h.2.2 sc rfl) hc

theorem ratioMinInvT_replaceSubtree (p : List Slot) :
    ∀ (t rep : TreeNode), ratioMinInvT t = true → ratioMinInvT rep = true →
      ratioMinInvT (replaceSubtree t p rep) = true := by
  induction p with
  | nil =>
    intro t rep _ hrep
    simpa [replaceSubtree] using hrep
  | cons d rest ih =>
    intro t rep h hrep
    cases t with
    | panel i ti qs c m => simpa [replaceSubtree] using h
    | split i o r m f s =>
      rw [ratioMinInvT_split_iff] at h
      cases d with
      | first =>
        cases f with
        | none =>
          simp only [replaceSubtree, Option.map_none]
          rw [ratioMinInvT_split_iff]
          exact ⟨h.1, by simp, h.2.2⟩
        | some fc =>
          simp only [replaceSubtree, Option.map_some]
          rw [ratioMinInvT_split_iff]
          refine ⟨h.1, ?_, h.2.2⟩
          intro x hx
          cases hx
          exact ih fc rep (h.2.1 fc rfl) hrep
      | second =>
        cases s with
        | none =>
          simp only [replaceSubtree, Option.map_none]
          rw [ratioMinInvT_split_iff]
          exact ⟨h.1, h.2.1, by simp⟩
        | some sc =>
          simp only [replaceSubtree, Option.map_some]
          rw [ratioMinInvT_split_iff]
          refine ⟨h.1, h.2.1, ?_⟩
          intro x hx
          cases hx
          exact ih sc rep (h.2.2 sc rfl) hrep

theorem ratioMinInvT_insertSplitAt (p : List Slot) :
    ∀ (t : TreeNode) (mk : TreeNode → TreeNode),
      ratioMinInvT t = true →
      (∀ target, ratioMinInvT target = true → ratioMinInvT (mk target) = true) →
      ratioMinInvT (SplitTreeModel.insertSplitAt t p mk) = true := by
  induction p with
  | nil =>
    intro t mk h _
    simpa [SplitTreeModel.insertSplitAt] using h
  | cons d rest ih =>
    intro t mk h hmk
    cases t with
    | panel i ti qs c m =>
      cases rest <;>
        simpa [SplitTreeModel.insertSplitAt, TreeNode.childSlot] using h
    | split i o r m f s =>
      rw [ratioMinInvT_split_iff] at h
      cases rest with
      | nil =>
        cases d with
        | first =>
          cases f with
          | none =>
            simp only [SplitTreeModel.insertSplitAt, TreeNode.childSlot]
            rw [ratioMinInvT_split_iff]
            exact ⟨h.1, by simp, h.2.2⟩
          | some fc =>
            simp only [SplitTreeModel.insertSplitAt, TreeNode.childSlot,
              SplitTreeModel.attachContainer]
            rw [ratioMinInvT_split_iff]
            refine ⟨h.1, ?_, h.2.2⟩
            intro x hx
            cases hx
            exact hmk fc (h.2.1 fc rfl)
        | second =>
          cases s with
          | none =>
            simp only [SplitTreeModel.insertSplitAt, TreeNode.childSlot]
            rw [ratioMinInvT_split_iff]
            exact ⟨h.1, h.2.1, by simp⟩
          | some sc =>
            cases f with
            | none =>
              simp only [SplitTreeModel.insertSplitAt, TreeNode.childSlot,
                SplitTreeModel.attachContainer]
              rw [ratioMinInvT_split_iff]
              refine ⟨h.1, ?_, by simp⟩
              intro x hx
              cases hx
              exact hmk sc (h.2.2 sc rfl)
            | some fc =>
              simp only [SplitTreeModel.insertSplitAt, TreeNode.childSlot,
                SplitTreeModel.attachContainer]
              rw [ratioMinInvT_split_iff]
              refine ⟨h.1, ?_, ?_⟩
              · intro x hx
                cases hx
                exact h.2.1 fc rfl
              · intro x hx
                cases hx
                exact hmk sc (h.2.2 sc rfl)
      | cons x xs =>
        cases d with
        | first =>
          cases f with
          | none =>
            simp only [SplitTreeModel.insertSplitAt, Option.map_none]
            rw [ratioMinInvT_split_iff]
            exact ⟨h.1, by simp, h.2.2⟩
          | some fc =>
            simp only [SplitTreeModel.insertSplitAt, Option.map_some]
            rw [ratioMinInvT_split_iff]
            refine ⟨h.1, ?_, h.2.2⟩
            intro y hy
            cases hy
            exact ih fc mk (h.2.1 fc rfl) hmk
        | second =>
          cases s with
          | none =>
            simp only [SplitTreeModel.insertSplitAt, Option.map_none]
            rw [ratioMinInvT_split_iff]
            exact ⟨h.1, h.2.1, by simp⟩
          | some sc =>
            simp only [SplitTreeModel.insertSplitAt, Option.map_some]
            rw [ratioMinInvT_split_iff]
            refine ⟨h.1, h.2.1, ?_⟩
            intro y hy
            cases hy
            exact ih sc mk (h.2.2 sc rfl) hmk

theorem ratioMinInv_removeSub (p : List Slot) :
    ∀ (t : TreeNode), ratioMinInvT t = true →
      ratioMinInv (SplitTreeModel.removeSub t p) = true := by
  induction p with
  | nil =>
    intro t h
    simpa [SplitTreeModel.removeSub, ratioMinInv] using h
  | cons d rest ih =>
    intro t h
    cases t with
    | panel i ti qs c m =>
      cases rest <;> simpa [SplitTreeModel.removeSub, ratioMinInv] using h
    | split i o r m f s =>
      rw [ratioMinInvT_split_iff] at h
      cases rest with
      | nil =>
        cases d with
        | first =>
          cases s with
          | none =>
            simp only [SplitTreeModel.removeSub, ratioMinInv]
            rw [ratioMinInvT_split_iff]
            exact ⟨h.1, by simp, by simp⟩
          | some sib =>
            simp only [SplitTreeModel.removeSub, ratioMinInv]
            exact h.2.2 sib rfl
        | second =>
          cases f with
          | none =>
            simp only [SplitTreeModel.removeSub, ratioMinInv]
            rw [ratioMinInvT_split_iff]
            exact ⟨h.1, by simp, by simp⟩
          | some sib =>
            simp only [SplitTreeModel.removeSub, ratioMinInv]
            exact h.2.1 sib rfl
      | cons x xs =>
        cases d with
        | first =>
          cases f with
          | none =>
            simp only [SplitTreeModel.removeSub, Option.map_none, ratioMinInv]
            rw [ratioMinInvT_split_iff]
            exact ⟨h.1, by simp, h.2.2⟩
          | some fc =>
            simp only [SplitTreeModel.removeSub, Option.map_some, ratioMinInv]
            rw [ratioMinInvT_split_iff]
            refine ⟨h.1, ?_, h.2.2⟩
            intro y hy
            cases hy
            have hic := ih fc (h.2.1 fc rfl)
            show ratioMinInvT ((SplitTreeModel.removeSub fc (x :: xs)).getD fc) = true
            cases hrc : SplitTreeModel.removeSub fc (x :: xs) with
            | none => simpa using h.2.1 fc rfl
            | some z =>
              rw [hrc] at hic
              simpa [ratioMinInv] using hic
        | second =>
          cases s with
          | none =>
            simp only [SplitTreeModel.removeSub, Option.map_none, ratioMinInv]
            rw [ratioMinInvT_split_iff]
            exact ⟨h.1, h.2.1, by simp⟩
          | some sc =>
            simp only [SplitTreeModel.removeSub, Option.map_some, ratioMinInv]
            rw [ratioMinInvT_split_iff]
            refine ⟨h.1, h.2.1, ?_⟩
            intro y hy
            cases hy
            have hic := ih sc (h.2.2 sc rfl)
            show ratioMinInvT ((SplitTreeModel.removeSub sc (x :: xs)).getD sc) = true
            cases hrc : SplitTreeModel.removeSub sc (x :: xs) with
            | none => simpa using h.2.2 sc rfl
            | some z =>
              rw [hrc] at hic
              simpa [ratioMinInv] using hic

theorem clampValue_bounds (x lo hi : Rat) (h : lo ≤ hi) :
    lo ≤ clampValue x lo hi ∧ clampValue x lo hi ≤ hi := by
  unfold clampValue
  exact ⟨le_max_left lo _, max_le h (min_le_left hi x)⟩

theorem stateInv_parts {st : SplitTreeModel.State} (h : stateInv st = true) :
    ratioMinInv st.root = true ∧
      (50 : Rat) ≤ st.minPanelSize ∧ st.minPanelSize ≤ 1000 := by
  unfold stateInv at h
  simpa [Bool.and_eq_true, decide_eq_true_eq] using h

theorem stateInv_intro {st : SplitTreeModel.State}
    (h1 : ratioMinInv st.root = true)
    (h2 : (50 : Rat) ≤ st.minPanelSize) (h3 : st.minPanelSize ≤ 1000) :
    stateInv st = true := by
  unfold stateInv
  simp [Bool.and_eq_true, decide_eq_true_eq, h1, h2, h3]

theorem ratioMinInvT_mkSplit (nid : String) (o : Orientation) (minP : Rat)
    (a b : TreeNode) (hm1 : (50 : Rat) ≤ minP) (hm2 : minP ≤ 1000)
    (ha : ratioMinInvT a = true) (hb : ratioMinInvT b = true) :
    ratioMinInvT (.split nid o (mkRat 1 2) minP (some a) (some b)) = true := by
  rw [ratioMinInvT_split_iff]
  refine ⟨⟨by norm_num, by norm_num, hm1, hm2⟩, ?_, ?_⟩ <;>
  · intro x hx
    cases hx
    assumption

theorem stateInv_insertPanelAt (st : SplitTreeModel.State) (panel : TreeNode)
    (p : List Slot) (z : DropZone)
    (hst : stateInv st = true) (hp : ratioMinInvT panel = true) :
    stateInv (SplitTreeModel.insertPanelAt st panel p z).2 = true := by
  obtain ⟨hroot, hm1, hm2⟩ := stateInv_parts hst
  unfold SplitTreeModel.insertPanelAt
  cases hz : SplitTreeModel.zoneOrder z with
  | none => simpa using hst
  | some pr =>
    obtain ⟨orient, rev⟩ := pr
    cases hr : st.root with
    | none => simpa using hst
    | some rootT =>
      have hrootT : ratioMinInvT rootT = true := by
        rw [hr] at hroot
        simpa [ratioMinInv] using hroot
      have hmk : ∀ target, ratioMinInvT target = true →
          ratioMinInvT (if rev then
              TreeNode.split (SplitTreeModel.generateNodeId st).1 orient (mkRat 1 2)
                st.minPanelSize (some panel) (some target)
            else
              TreeNode.split (SplitTreeModel.generateNodeId st).1 orient (mkRat 1 2)
                st.minPanelSize (some target) (some panel)) = true := by
        intro target ht
        cases rev <;>
          simp only [if_true, if_false, Bool.false_eq_true, ite_false, ite_true] <;>
          exact ratioMinInvT_mkSplit _ _ _ _ _ hm1 hm2 (by assumption) (by assumption)
      cases p with
      | nil =>
        refine stateInv_intro ?_ hm1 hm2
        simpa [ratioMinInv] using hmk rootT hrootT
      | cons d rest =>
        refine stateInv_intro ?_ hm1 hm2
        simpa [ratioMinInv] using
          ratioMinInvT_insertSplitAt (d :: rest) rootT _ hrootT hmk

theorem stateInv_addPanelAt (st : SplitTreeModel.State)
    (panelId title qmlSource targetId : String) (dropZone : DropZone)
    (hst : stateInv st = true) :
    stateInv (SplitTreeModel.addPanelAt st panelId title qmlSource targetId dropZone).2
      = true := by
  obtain ⟨hroot, hm1, hm2⟩ := stateInv_parts hst
  have hp : ratioMinInvT (SplitTreeModel.createPanelNode st panelId title qmlSource)
      = true := by
    simp [SplitTreeModel.createPanelNode, ratioMinInvT, hm1, hm2]
  unfold SplitTreeModel.addPanelAt
  by_cases hemp : panelId = ""
  · simpa [hemp] using hst
  · simp only [hemp, if_false, Bool.false_eq_true, ite_false]
    cases hdup : (SplitTreeModel.findNodeById st.root panelId).isSome with
    | true => simpa using hst
    | false =>
      simp only [Bool.false_eq_true, if_false, ite_false]
      cases hr : st.root with
      | none =>
        refine stateInv_intro ?_ hm1 hm2
        simpa [ratioMinInv] using hp
      | some rootT =>
        exact stateInv_insertPanelAt st _ _ _ hst hp

theorem stateInv_addPanel (st : SplitTreeModel.State)
    (panelId title qmlSource : String)
    (hst : stateInv st = true) :
    stateInv (SplitTreeModel.addPanel st panelId title qmlSource).2 = true := by
  obtain ⟨hroot, hm1, hm2⟩ := stateInv_parts hst
  have hp : ratioMinInvT (SplitTreeModel.createPanelNode st panelId title qmlSource)
      = true := by
    simp [SplitTreeModel.createPanelNode, ratioMinInvT, hm1, hm2]
  unfold SplitTreeModel.addPanel
  by_cases hemp : panelId = ""
  · simpa [hemp] using hst
  · simp only [hemp, if_false, Bool.false_eq_true, ite_false]
    cases hdup : (SplitTreeModel.findNodeById st.root panelId).isSome with
    | true => simpa using hst
    | false =>
      simp only [Bool.false_eq_true, if_false, ite_false]
      cases hr : st.root with
      | none =>
        refine stateInv_intro ?_ hm1 hm2
        simpa [ratioMinInv] using hp
      | some rootT =>
        exact stateInv_insertPanelAt st _ _ _ hst hp

theorem stateInv_removePanel (st : SplitTreeModel.State) (panelId : String)
    (hst : stateInv st = true) :
    stateInv (SplitTreeModel.removePanel st panelId).2 = true := by
  obtain ⟨hroot, hm1, hm2⟩ := stateInv_parts hst
  unfold SplitTreeModel.removePanel
  cases hfind : SplitTreeModel.findNodeById st.root panelId with
  | none => simpa using hst
  | some path =>
    cases hnode : nodeAtPath st.root path with
    | none => simp only [hnode]; simpa using hst
    | some node =>
      simp only [hnode]
      cases hpan : node.isPanel with
      | false => simp [hpan]; simpa using hst
      | true =>
        simp only [hpan, Bool.true_eq_false, if_false, ite_false]
        cases path with
        | nil =>
          refine stateInv_intro ?_ hm1 hm2
          simp [ratioMinInv]
        | cons d rest =>
          cases hr : st.root with
          | none => cases rest <;> simpa using hst
          | some rootT =>
            have hrootT : ratioMinInvT rootT = true := by
              rw [hr] at hroot
              simpa [ratioMinInv] using hroot
            cases rest with
            | nil =>
              cases rootT with
              | panel i ti qs c m => simpa using hst
              | split i o r m f s =>
                refine stateInv_intro ?_ hm1 hm2
                rw [ratioMinInvT_split_iff] at hrootT
                cases d with
                | first =>
                  cases s with
                  | none => simp [TreeNode.childSlot, Slot.other, ratioMinInv]
                  | some sc =>
                    simp only [TreeNode.childSlot, Slot.other]
                    simpa [ratioMinInv] using hrootT.2.2 sc rfl
                | second =>
                  cases f with
                  | none => simp [TreeNode.childSlot, Slot.other, ratioMinInv]
                  | some fc =>
                    simp only [TreeNode.childSlot, Slot.other]
                    simpa [ratioMinInv] using hrootT.2.1 fc rfl
            | cons e rest2 =>
              refine stateInv_intro ?_ hm1 hm2
              simpa using ratioMinInv_removeSub (d :: e :: rest2) rootT hrootT

theorem stateInv_updateSplitRatio (st : SplitTreeModel.State)
    (containerId : String) (ratio : Rat)
    (hst : stateInv st = true) :
    stateInv (SplitTreeModel.updateSplitRatio st containerId ratio).2 = true := by
  obtain ⟨hroot, hm1, hm2⟩ := stateInv_parts hst
  unfold SplitTreeModel.updateSplitRatio
  cases hfind : SplitTreeModel.findNodeById st.root containerId with
  | none => simpa using hst
  | some path =>
    cases hnode : nodeAtPath st.root path with
    | none => simp only [hnode]; simpa using hst
    | some node =>
      cases node with
      | panel i ti qs c m => simp only [hnode]; simpa using hst
      | split i o r m f s =>
        cases hr : st.root with
        | none => simp only [hnode, hr]; simpa using hst
        | some rootT =>
          rw [hr] at hnode
          simp only [hnode]
          have hrootT : ratioMinInvT rootT = true := by
            rw [hr] at hroot
            simpa [ratioMinInv] using hroot
          cases path with
          | nil => simpa using hst
          | cons d rest =>
          refine stateInv_intro ?_ hm1 hm2
          have hsub : ratioMinInvT (TreeNode.split i o r m f s) = true :=
            ratioMinInvT_subtreeAt (d :: rest) rootT _ hrootT hnode
          rw [ratioMinInvT_split_iff] at hsub
          have hrep : ratioMinInvT
              (TreeNode.split i o (clampValue ratio (mkRat 1 10) (mkRat 9 10)) m f s) = true := by
            rw [ratioMinInvT_split_iff]
            have hb := clampValue_bounds ratio (mkRat 1 10) (mkRat 9 10) (by decide)
            exact ⟨⟨hb.1, hb.2, hsub.1.2.2⟩, hsub.2.1, hsub.2.2⟩
          simpa [ratioMinInv] using
            ratioMinInvT_replaceSubtree (d :: rest) rootT _ hrootT hrep

theorem stateInv_clear (st : SplitTreeModel.State) (hst : stateInv st = true) :
    stateInv (SplitTreeModel.clear st) = true := by
  obtain ⟨hroot, hm1, hm2⟩ := stateInv_parts hst
  unfold SplitTreeModel.clear
  cases st.root with
  | none => exact hst
  | some t => exact stateInv_intro (by simp [ratioMinInv]) hm1 hm2

theorem stateInv_setMinPanelSize (st : SplitTreeModel.State) (size : Rat)
    (hst : stateInv st = true) :
    stateInv (SplitTreeModel.setMinPanelSize st size) = true := by
  obtain ⟨hroot, hm1, hm2⟩ := stateInv_parts hst
  have hb := clampValue_bounds size 50 1000 (by norm_num)
  unfold SplitTreeModel.setMinPanelSize
  exact stateInv_intro (by simpa using hroot) hb.1 hb.2

/-- Counterexample to C4 as stated: loading a version-`"2.0"` document
whose split carries `splitRatio = 5` and `minSize = 2000` succeeds, and
`SplitTreeModel::loadNodeFromVariant` stores both values verbatim without
clamping, so after this API operation the tree violates the clamped
ranges. -/
theorem clamping_invariant_counterexample :
    SplitTreeModel.loadLayout SplitTreeModel.initState outOfRangeDoc =
      (true, { root := some (.split "s" .vertical 5 2000
                 (some (.panel "a" "A" "" true 150))
                 (some (.panel "b" "B" "" true 150))),
               panelCount := 2, minPanelSize := 150, nodeIdCounter := 0 }) ∧
    ratioMinInv
      (SplitTreeModel.loadLayout SplitTreeModel.initState outOfRangeDoc).2.root
      = false := by
  have heval : SplitTreeModel.loadLayout SplitTreeModel.initState outOfRangeDoc =
      (true, { root := some (.split "s" .vertical 5 2000
                 (some (.panel "a" "A" "" true 150))
                 (some (.panel "b" "B" "" true 150))),
               panelCount := 2, minPanelSize := 150, nodeIdCounter := 0 }) := by
    unfold SplitTreeModel.loadLayout
    simp [outOfRangeDoc, panelDocA, SplitTreeModel.loadNodeFromVariant, mvalue,
      mvalueD, mlookup, mcontains, vToString, vToBool, vToRat, vToMap,
      SplitTreeModel.initState, SplitTreeModel.countPanels, SplitTreeModel.countPanelsT]
  refine ⟨heval, ?_⟩
  rw [heval]
  rfl

/-- C4 (amended).  The setters clamp silently to the nearest boundary
(`validateSplitRatio` to `[0.1, 0.9]`, `validateMinSize` to `[50, 1000]`,
in-range values stored unchanged), and every tree-mutating
`SplitTreeModel` API call — `addPanel`, `addPanelAt`, `removePanel`,
`updateSplitRatio`, `clear`, `setMinPanelSize` (the latter with arbitrary
input) — preserves the invariant that all split ratios lie in `[0.1, 0.9]`
and all minimum sizes in `[50, 1000]`.  Loading a layout document is the
exception the counterexample exhibits: `loadNodeFromVariant` stores
document values unclamped, so `loadLayout` can break the invariant. -/
theorem clamping_setters_and_mutations :
    (∀ r : Rat, r < mkRat 1 10 → validateSplitRatio r = mkRat 1 10) ∧
    (∀ r : Rat, mkRat 9 10 < r → validateSplitRatio r = mkRat 9 10) ∧
    (∀ r : Rat, mkRat 1 10 ≤ r → r ≤ mkRat 9 10 → validateSplitRatio r = r) ∧
    (∀ x : Rat, x < 50 → validateMinSize x = 50) ∧
    (∀ x : Rat, 1000 < x → validateMinSize x = 1000) ∧
    (∀ x : Rat, 50 ≤ x → x ≤ 1000 → validateMinSize x = x) ∧
    (∀ (st : SplitTreeModel.State) (panelId title qmlSource : String),
      stateInv st = true →
      stateInv (SplitTreeModel.addPanel st panelId title qmlSource).2 = true) ∧
    (∀ (st : SplitTreeModel.State)
        (panelId title qmlSource targetId : String) (z : DropZone),
      stateInv st = true →
      stateInv (SplitTreeModel.addPanelAt st panelId title qmlSource targetId z).2
        = true) ∧
    (∀ (st : SplitTreeModel.State) (panelId : String),
      stateInv st = true →
      stateInv (SplitTreeModel.removePanel st panelId).2 = true) ∧
    (∀ (st : SplitTreeModel.State) (containerId : String) (ratio : Rat),
      stateInv st = true →
      stateInv (SplitTreeModel.updateSplitRatio st containerId ratio).2 = true) ∧
    (∀ st : SplitTreeModel.State,
      stateInv st = true → stateInv (SplitTreeModel.clear st) = true) ∧
    (∀ (st : SplitTreeModel.State) (size : Rat),
      stateInv st = true →
      stateInv (SplitTreeModel.setMinPanelSize st size) = true) := by
  refine ⟨?_, ?_, ?_, ?_, ?_, ?_, stateInv_addPanel, stateInv_addPanelAt,
    stateInv_removePanel, stateInv_updateSplitRatio, stateInv_clear,
    stateInv_setMinPanelSize⟩
  · intro r hr
    unfold validateSplitRatio clampValue
    rw [min_eq_right (le_of_lt (lt_of_lt_of_le hr (by norm_num)))]
    exact max_eq_left (le_of_lt hr)
  · intro r hr
    unfold validateSplitRatio clampValue
    rw [min_eq_left (le_of_lt hr)]
    exact max_eq_right (by norm_num)
  · intro r hr1 hr2
    unfold validateSplitRatio clampValue
    rw [min_eq_right hr2]
    exact max_eq_right hr1
  · intro x hx
    unfold validateMinSize clampValue
    rw [min_eq_right (le_of_lt (lt_of_lt_of_le hx (by norm_num)))]
    exact max_eq_left (le_of_lt hx)
  · intro x hx
    unfold validateMinSize clampValue
    rw [min_eq_left (le_of_lt hx)]
    exact max_eq_right (by norm_num)
  · intro x hx1 hx2
    unfold validateMinSize clampValue
    rw [min_eq_right hx2]
    exact max_eq_right hx1

/-- Witness for the amended C4: an out-of-range ratio snaps to the upper
boundary, an out-of-range size to the lower one, and a concrete
`updateSplitRatio 99` call on the two-panel tree keeps the invariant. -/
theorem clamping_setters_and_mutations_witness :
    validateSplitRatio 5 = mkRat 9 10 ∧ validateMinSize 7 = 50 ∧
    stateInv (SplitTreeModel.updateSplitRatio stmThreePanels "s2" 99).2 = true :=
  ⟨clamping_setters_and_mutations.2.1 5 (by decide),
   clamping_setters_and_mutations.2.2.2.1 7 (by norm_num),
   clamping_setters_and_mutations.2.2.2.2.2.2.2.2.2.1 stmThreePanels "s2" 99
     (by decide)⟩

/-! ### Claim C10 -/

theorem countInv_insertPanelAt (st : SplitTreeModel.State) (panel : TreeNode)
    (p : List Slot) (z : DropZone)
    (h : st.panelCount = SplitTreeModel.countPanels st.root) :
    (SplitTreeModel.insertPanelAt st panel p z).2.panelCount =
      SplitTreeModel.countPanels (SplitTreeModel.insertPanelAt st panel p z).2.root := by
  unfold SplitTreeModel.insertPanelAt
  cases hz : SplitTreeModel.zoneOrder z with
  | none => simpa using h
  | some pr =>
    obtain ⟨o, rev⟩ := pr
    cases hr : st.root with
    | none => simpa using h
    | some rootT => simp

/-- Counterexample to C10 as stated: `DockingManager::panelCount` is the
registry size, and `addPanelAt` registers the new panel before the insert
switch validates the direction.  A failed insert (direction `Center`)
leaves the panel registered but not in the tree: `panelCount` reports 2
while only 1 leaf is reachable from the root. -/
theorem panelCount_diverges_counterexample :
    (DockingManager.addPanelAt dmOnePanel "b" "B" "" "a" .center).1 = false ∧
    DockingManager.panelCount
      (DockingManager.addPanelAt dmOnePanel "b" "B" "" "a" .center).2 = 2 ∧
    DockingManager.countPanels
      (DockingManager.addPanelAt dmOnePanel "b" "B" "" "a" .center).2.root = 1 :=
  ⟨rfl, rfl, rfl⟩

/-- C10 (amended).  In `SplitTreeModel` the cached `panelCount` is
recomputed from the tree after every mutation, so after each completed
public operation — `addPanel`, `addPanelAt`, `removePanel`, `loadLayout`,
`clear` — it equals the number of panel leaves reachable from the root
(failed operations leave the state untouched).  `DockingManager`'s
`panelCount` is instead the registry size and can diverge from the tree
after a failed or duplicate insert (see the counterexample). -/
theorem panelCount_matches_tree :
    (∀ (st : SplitTreeModel.State) (panelId title qmlSource : String),
      st.panelCount = SplitTreeModel.countPanels st.root →
      (SplitTreeModel.addPanel st panelId title qmlSource).2.panelCount =
        SplitTreeModel.countPanels
          (SplitTreeModel.addPanel st panelId title qmlSource).2.root) ∧
    (∀ (st : SplitTreeModel.State)
        (panelId title qmlSource targetId : String) (z : DropZone),
      st.panelCount = SplitTreeModel.countPanels st.root →
      (SplitTreeModel.addPanelAt st panelId title qmlSource targetId z).2.panelCount =
        SplitTreeModel.countPanels
          (SplitTreeModel.addPanelAt st panelId title qmlSource targetId z).2.root) ∧
    (∀ (st : SplitTreeModel.State) (panelId : String),
      st.panelCount = SplitTreeModel.countPanels st.root →
      (SplitTreeModel.removePanel st panelId).2.panelCount =
        SplitTreeModel.countPanels (SplitTreeModel.removePanel st panelId).2.root) ∧
    (∀ (st : SplitTreeModel.State) (layout : VariantMap),
      st.panelCount = SplitTreeModel.countPanels st.root →
      (SplitTreeModel.loadLayout st layout).2.panelCount =
        SplitTreeModel.countPanels (SplitTreeModel.loadLayout st layout).2.root) ∧
    (∀ st : SplitTreeModel.State,
      st.panelCount = SplitTreeModel.countPanels st.root →
      (SplitTreeModel.clear st).panelCount =
        SplitTreeModel.countPanels (SplitTreeModel.clear st).root) := by
  refine ⟨?_, ?_, ?_, ?_, ?_⟩
  · intro st panelId title qmlSource h
    unfold SplitTreeModel.addPanel
    by_cases hemp : panelId = ""
    · simpa [hemp] using h
    · simp only [hemp, if_false, Bool.false_eq_true, ite_false]
      cases hdup : (SplitTreeModel.findNodeById st.root panelId).isSome with
      | true => simpa using h
      | false =>
        simp only [Bool.false_eq_true, if_false, ite_false]
        cases hr : st.root with
        | none => simp
        | some rootT => exact countInv_insertPanelAt st _ _ _ h
  · intro st panelId title qmlSource targetId z h
    unfold SplitTreeModel.addPanelAt
    by_cases hemp : panelId = ""
    · simpa [hemp] using h
    · simp only [hemp, if_false, Bool.false_eq_true, ite_false]
      cases hdup : (SplitTreeModel.findNodeById st.root panelId).isSome with
      | true => simpa using h
      | false =>
        simp only [Bool.false_eq_true, if_false, ite_false]
        cases hr : st.root with
        | none => simp
        | some rootT => exact countInv_insertPanelAt st _ _ _ h
  · intro st panelId h
    unfold SplitTreeModel.removePanel
    cases hfind : SplitTreeModel.findNodeById st.root panelId with
    | none => simpa using h
    | some path =>
      cases hnode : nodeAtPath st.root path with
      | none => simp only [hnode]; simpa using h
      | some node =>
        simp only [hnode]
        cases hpan : node.isPanel with
        | false => simp [hpan]; simpa using h
        | true =>
          simp only [hpan, Bool.true_eq_false, if_false, ite_false]
          cases path with
          | nil => simp [SplitTreeModel.countPanels]
          | cons d rest =>
            cases hr : st.root with
            | none => cases rest <;> simp [h]
            | some rootT =>
              cases rootT with
              | panel i ti qs c m => cases rest <;> simp [h]
              | split i o r m f s => cases rest <;> simp
  · intro st layout h
    unfold SplitTreeModel.loadLayout
    cases layout with
    | nil => simpa using h
    | cons kv rest =>
      by_cases hver : vToString (mvalue (kv :: rest) "version") = "2.0" <;>
        simp [hver, h]
  · intro st h
    unfold SplitTreeModel.clear
    cases st.root with
    | none => simpa using h
    | some t => simp [SplitTreeModel.countPanels]

/-- Witness for the amended C10: after adding panel `b` to the one-panel
model, the cached count equals the reachable-leaf count. -/
theorem panelCount_matches_tree_witness :
    (SplitTreeModel.addPanel stmOnePanel "b" "B" "").2.panelCount =
      SplitTreeModel.countPanels
        (SplitTreeModel.addPanel stmOnePanel "b" "B" "").2.root :=
  panelCount_matches_tree.1 stmOnePanel "b" "B" "" rfl

end Docking
